import Mathlib

/-!
Verification of the floor-plan ingestion pipeline
(`app/services/floor_plan_ingestion.py`).

The pipeline is shallowly embedded over exact rationals (`ℚ`): Python
floats become `ℚ`, so the model has exact-real semantics rather than
IEEE-754 rounding.  Two external effects are made explicit parameters:

* `uuid.uuid4()` draws are modelled by an identifier supply
  `s : ℕ → ℕ`; the `k`-th identifier minted during one `_assemble`
  invocation is `s k`.  Identifiers are natural numbers in the model.
* `math.cos(math.radians(venue_lat))` is not a rational function, so
  every function that needs it takes the cosine value `cosLat : ℚ`
  as an explicit argument; theorems assume `|cosLat| ≤ 1` (true of any
  real cosine) where needed.

The `cv2`/`pdf2image` raster-extraction stages are external library
calls and are not modelled; a `PageData` record carries their outputs
(room polygons, door positions, wall segments, all in meters), which is
exactly the data `_process_image` hands to `_assemble`.
-/

/-- Python's built-in `round` (banker's rounding, round-half-to-even)
on an exact rational. -/
def pyRound (q : ℚ) : ℤ :=
  let f := ⌊q⌋
  let r := q - f
  if r < 1/2 then f
  else if 1/2 < r then f + 1
  else if f % 2 = 0 then f else f + 1

/-- Python's `round(q, k)`: round to `k` decimal places. -/
def roundTo (q : ℚ) (k : ℕ) : ℚ :=
  (pyRound (q * 10 ^ k) : ℚ) / 10 ^ k

/-- Python's `int(q)`: truncation toward zero. -/
def pyInt (q : ℚ) : ℤ :=
  if q < 0 then -⌊-q⌋ else ⌊q⌋

/-- Source constant `METERS_PER_DEG_LAT = 111_320.0`. -/
def METERS_PER_DEG_LAT : ℚ := 111320

/-- `_meter_to_geo_point`: planar (x, y) in meters, relative to local
origin `(origin_x, origin_y)`, to geographic `(lat, lon)` anchored at
`(venue_lat, venue_lon)`; both coordinates rounded to 8 decimals.
`cosLat` stands for `math.cos(math.radians(venue_lat))`. -/
def meter_to_geo_point (x y origin_x origin_y venue_lat venue_lon cosLat : ℚ) :
    ℚ × ℚ :=
  let dx := x - origin_x
  let dy := y - origin_y
  let meters_per_deg_lon := METERS_PER_DEG_LAT * cosLat
  let lat := venue_lat + dy / METERS_PER_DEG_LAT
  let lon := venue_lon + dx / meters_per_deg_lon
  (roundTo lat 8, roundTo lon 8)

/-- `_meters_to_geo`: pointwise `_meter_to_geo_point` over a coordinate
list.  Geographic points are `(lat, lon)` pairs. -/
def meters_to_geo (coords : List (ℚ × ℚ))
    (origin_x origin_y venue_lat venue_lon cosLat : ℚ) : List (ℚ × ℚ) :=
  coords.map fun p =>
    meter_to_geo_point p.1 p.2 origin_x origin_y venue_lat venue_lon cosLat

/-- Loop body of `_geo_to_meters`: one geographic `(lat, lon)` pair back
to planar meters, using the same anchor-latitude cosine as the forward
transform. -/
def geo_to_meters_point (lat lon origin_x origin_y venue_lat venue_lon cosLat : ℚ) :
    ℚ × ℚ :=
  let meters_per_deg_lon := METERS_PER_DEG_LAT * cosLat
  (origin_x + (lon - venue_lon) * meters_per_deg_lon,
   origin_y + (lat - venue_lat) * METERS_PER_DEG_LAT)

/-- `_geo_to_meters`: pointwise inverse transform over a list. -/
def geo_to_meters (geo_coords : List (ℚ × ℚ))
    (origin_x origin_y venue_lat venue_lon cosLat : ℚ) : List (ℚ × ℚ) :=
  geo_coords.map fun p =>
    geo_to_meters_point p.1 p.2 origin_x origin_y venue_lat venue_lon cosLat

/-- Squared Euclidean distance between two planar points. -/
def sqDist (a b : ℚ × ℚ) : ℚ :=
  (a.1 - b.1) * (a.1 - b.1) + (a.2 - b.2) * (a.2 - b.2)

/-- Close an open vertex ring the way `shapely` stores an exterior ring:
repeat the first vertex at the end (`poly.exterior.coords`). -/
def closedRing : List (ℚ × ℚ) → List (ℚ × ℚ)
  | [] => []
  | x :: xs => x :: xs ++ [x]

/-- The consecutive-vertex edges of a ring (wrap-around included). -/
def ringEdges (ring : List (ℚ × ℚ)) : List ((ℚ × ℚ) × (ℚ × ℚ)) :=
  let c := closedRing ring
  c.zip c.tail

/-- Twice the signed shoelace area of a vertex ring. -/
def shoelace2 (ring : List (ℚ × ℚ)) : ℚ :=
  ((ringEdges ring).map fun e => e.1.1 * e.2.2 - e.2.1 * e.1.2).foldl (· + ·) 0

/-- `shapely` `Polygon.area`: absolute shoelace area. -/
def polyArea (ring : List (ℚ × ℚ)) : ℚ :=
  |shoelace2 ring| / 2

/-- `shapely` `Polygon.centroid` for a non-degenerate ring (the standard
area-weighted formula).  For a zero-area ring shapely falls back to the
boundary centroid; the model uses the vertex average there (no claim
depends on degenerate centroids). -/
def ringCentroid (ring : List (ℚ × ℚ)) : ℚ × ℚ :=
  let a2 := shoelace2 ring
  if a2 = 0 then
    ((ring.map (·.1)).foldl (· + ·) 0 / ring.length,
     (ring.map (·.2)).foldl (· + ·) 0 / ring.length)
  else
    (((ringEdges ring).map fun e =>
        (e.1.1 + e.2.1) * (e.1.1 * e.2.2 - e.2.1 * e.1.2)).foldl (· + ·) 0 / (3 * a2),
     ((ringEdges ring).map fun e =>
        (e.1.2 + e.2.2) * (e.1.1 * e.2.2 - e.2.1 * e.1.2)).foldl (· + ·) 0 / (3 * a2))

/-- Squared distance from point `p` to the segment `[a, b]`. -/
def sqDistSegPoint (a b p : ℚ × ℚ) : ℚ :=
  let dx := b.1 - a.1
  let dy := b.2 - a.2
  let len2 := dx * dx + dy * dy
  if len2 = 0 then sqDist a p
  else
    let t := max 0 (min 1 (((p.1 - a.1) * dx + (p.2 - a.2) * dy) / len2))
    sqDist (a.1 + t * dx, a.2 + t * dy) p

/-- Even-odd (ray casting) interior test for a point against a ring. -/
def pointInRing (ring : List (ℚ × ℚ)) (p : ℚ × ℚ) : Bool :=
  (ringEdges ring).foldl
    (fun acc e =>
      let a := e.1
      let b := e.2
      if (decide (p.2 < a.2) != decide (p.2 < b.2)) &&
          decide (p.1 < a.1 + (p.2 - a.2) * (b.1 - a.1) / (b.2 - a.2))
      then !acc else acc)
    false

/-- `shapely` `Polygon.distance(Point)`, squared: `0` for a point inside
the polygon, otherwise the minimum over the boundary edges.  All uses in
the source only compare this distance, so working with its square is
exact. -/
def sqDistRingPoint (ring : List (ℚ × ℚ)) (p : ℚ × ℚ) : ℚ :=
  if pointInRing ring p then 0
  else
    match (ringEdges ring).map fun e => sqDistSegPoint e.1 e.2 p with
    | [] => 0
    | d :: ds => ds.foldl min d

/-- Source constant `ROOM_TYPE_BY_AREA`. -/
def ROOM_TYPE_BY_AREA : List (ℚ × String) :=
  [(6, "closet"), (15, "room"), (30, "corridor"), (60, "room"), (120, "lobby")]

/-- `_classify_room`: first bucket whose threshold exceeds the area,
else `"lobby"`. -/
def classify_room (area_sq_m : ℚ) : String :=
  match ROOM_TYPE_BY_AREA.find? fun tr => decide (area_sq_m < tr.1) with
  | some tr => tr.2
  | none => "lobby"

/-- Source constant `ZONE_PRIORITY` (`dict.get(·, 3)` is modelled by
`List.lookup` with default `3`). -/
def ZONE_PRIORITY : List (String × ℕ) :=
  [("entrance", 9), ("lobby", 8), ("corridor", 6), ("stairwell", 5),
   ("room", 4), ("custom", 3), ("closet", 2)]

/-- `IngestedZone` (identifiers are naturals in the model). -/
structure IngestedZone where
  id : ℕ
  name : String
  type : String
  environment : String
  floor_level : ℤ
  polygon : List (ℚ × ℚ)
  centroid_lat : ℚ
  centroid_lon : ℚ
  area_sq_m : ℚ
  tier_requirement : String
  coverage_priority : ℕ
deriving DecidableEq, Repr, Inhabited

/-- `IngestedConnection`. -/
structure IngestedConnection where
  id : ℕ
  from_zone_id : ℕ
  to_zone_id : ℕ
  connection_type : String
  position : Option (ℚ × ℚ) := none
deriving DecidableEq, Repr, Inhabited

/-- `IngestedPerchPoint`. -/
structure IngestedPerchPoint where
  id : ℕ
  zone_id : ℕ
  surface_class : String
  surface_orientation : String
  tier_required : String
  position_lat : ℚ
  position_lon : ℚ
  height_m : ℚ
  wall_normal : Option (List ℚ) := none
  coverage_value : ℚ := 1/2
deriving DecidableEq, Repr, Inhabited

/-- `IngestionResult`. -/
structure IngestionResult where
  zones : List IngestedZone := []
  connections : List IngestedConnection := []
  perch_points : List IngestedPerchPoint := []
deriving DecidableEq, Repr

/-- Minimum of a list (the source calls Python `min` on a list that is
nonempty whenever it is reached). -/
def listMin : List ℚ → ℚ
  | [] => 0
  | x :: xs => xs.foldl min x

/-- Maximum of a list, as `listMin`. -/
def listMax : List ℚ → ℚ
  | [] => 0
  | x :: xs => xs.foldl max x

/-- Perch-point target count: `max(1, min(4, int(zone.area_sq_m / 15)))`. -/
def num_perch (area_sq_m : ℚ) : ℕ :=
  (max 1 (min 4 (pyInt (area_sq_m / 15)))).toNat

/-- `_generate_perch_positions`.  The argument `ring` is the open vertex
ring of the polygon, i.e. the source's `poly.exterior.coords[:-1]`; its
wall midpoints (wrap-around) are ranked by descending distance from the
centroid (Python's stable sort with key `-sqrt(d²)`, modelled by a
stable insertion sort on descending squared distance) and the first
`count` are kept. -/
def generate_perch_positions (ring : List (ℚ × ℚ)) (count : ℕ) :
    List (ℚ × ℚ) :=
  if ring.length < 2 then [ringCentroid ring]
  else
    let cen := ringCentroid ring
    let wall_midpoints :=
      (ringEdges ring).map fun e => ((e.1.1 + e.2.1) / 2, (e.1.2 + e.2.2) / 2)
    (List.insertionSort (fun a b => sqDist b cen ≤ sqDist a cen)
      wall_midpoints).take count

/-- The door-gap guard of `_detect_doors`: the source accepts a pair of
endpoints when `0.7 ≤ sqrt(d²) ≤ 1.5`; on exact reals this is the same
as `0.49 ≤ d² ≤ 2.25`, which is how the model states it. -/
def gap_accept (end_a end_b : ℚ × ℚ) : Bool :=
  decide ((49/100 : ℚ) ≤ sqDist end_a end_b) &&
    decide (sqDist end_a end_b ≤ 9/4)

/-- The candidate-collection loop of `_detect_doors`: for every pair of
distinct wall segments (in order) and every endpoint pair (one endpoint
per segment), keep the midpoint of every accepted pair. -/
def door_candidates : List ((ℚ × ℚ) × (ℚ × ℚ)) → List (ℚ × ℚ)
  | [] => []
  | seg_a :: rest =>
    (rest.flatMap fun seg_b =>
      [seg_a.1, seg_a.2].flatMap fun end_a =>
        [seg_b.1, seg_b.2].filterMap fun end_b =>
          if gap_accept end_a end_b then
            some ((end_a.1 + end_b.1) / 2, (end_a.2 + end_b.2) / 2)
          else none)
      ++ door_candidates rest

/-- `_detect_doors`: candidates, then first-seen deduplication on the
0.1 m grid (`round(·, 1)` on both coordinates).  The source's
`walls_mask` and `scale` parameters are unused by its body and omitted. -/
def detect_doors (wall_segments : List ((ℚ × ℚ) × (ℚ × ℚ))) : List (ℚ × ℚ) :=
  (door_candidates wall_segments |>.foldl
    (fun (acc : List (ℚ × ℚ) × List (ℚ × ℚ)) d =>
      let key := (roundTo d.1 1, roundTo d.2 1)
      if key ∈ acc.2 then acc else (acc.1 ++ [d], acc.2 ++ [key]))
    ([], [])).1

/-- One zone of the `_assemble` zone loop (`i` is the detection index;
`zid` the identifier drawn for it). -/
def mk_zone (zid i : ℕ) (ring : List (ℚ × ℚ))
    (origin_x origin_y venue_lat venue_lon cosLat : ℚ)
    (floor_level : ℤ) : IngestedZone :=
  let cen := ringCentroid ring
  let area := polyArea ring
  let zone_type := classify_room area
  let environment := if floor_level ≥ 0 then "indoor" else "indoor"
  let cenGeo :=
    meter_to_geo_point cen.1 cen.2 origin_x origin_y venue_lat venue_lon cosLat
  { id := zid
    name := "Zone " ++ toString (i + 1) ++ " (" ++ zone_type ++ ")"
    type := zone_type
    environment := environment
    floor_level := floor_level
    polygon :=
      meters_to_geo (closedRing ring) origin_x origin_y venue_lat venue_lon cosLat
    centroid_lat := cenGeo.1
    centroid_lon := cenGeo.2
    area_sq_m := roundTo area 2
    tier_requirement := if environment = "indoor" then "tier_1" else "either"
    coverage_priority := (ZONE_PRIORITY.lookup zone_type).getD 3 }

/-- The zone loop of `_assemble`: zone `i` draws identifier `s i`. -/
def mk_zones (s : ℕ → ℕ) (i : ℕ) (rooms : List (List (ℚ × ℚ)))
    (origin_x origin_y venue_lat venue_lon cosLat : ℚ)
    (floor_level : ℤ) : List IngestedZone :=
  match rooms with
  | [] => []
  | ring :: rest =>
    mk_zone (s i) i ring origin_x origin_y venue_lat venue_lon cosLat floor_level
      :: mk_zones s (i + 1) rest origin_x origin_y venue_lat venue_lon cosLat floor_level

/-- The planar ring `_assemble` rebuilds for a zone:
`Polygon(_geo_to_meters(z.polygon, ...))`.  The stored geographic ring is
closed, so the open vertex ring drops its final (closing) point. -/
def zone_ring (z : IngestedZone)
    (origin_x origin_y venue_lat venue_lon cosLat : ℚ) : List (ℚ × ℚ) :=
  (geo_to_meters z.polygon origin_x origin_y venue_lat venue_lon cosLat).dropLast

/-- The door-connection loop of `_assemble`; `c` is the index of the
next identifier draw.  The source filters the zones within 1.5 m of the
door point, and when at least two qualify sorts them by distance and
links the two nearest; sorting first and pattern-matching two elements
is the same (sorting preserves length). -/
def door_connections (s : ℕ → ℕ) (c : ℕ)
    (zone_polys : List (IngestedZone × List (ℚ × ℚ)))
    (doors : List (ℚ × ℚ))
    (origin_x origin_y venue_lat venue_lon cosLat : ℚ) : List IngestedConnection :=
  match doors with
  | [] => []
  | dp :: rest =>
    let nearby := zone_polys.filter fun zp => decide (sqDistRingPoint zp.2 dp < 9/4)
    match List.insertionSort
        (fun a b => sqDistRingPoint a.2 dp ≤ sqDistRingPoint b.2 dp) nearby with
    | za :: zb :: _ =>
      let pos :=
        meter_to_geo_point dp.1 dp.2 origin_x origin_y venue_lat venue_lon cosLat
      { id := s c, from_zone_id := za.1.id, to_zone_id := zb.1.id,
        connection_type := "door", position := some pos }
        :: door_connections s (c + 1) zone_polys rest
            origin_x origin_y venue_lat venue_lon cosLat
    | _ =>
      door_connections s c zone_polys rest origin_x origin_y venue_lat venue_lon cosLat

/-- The sequential-adjacency fallback of `_assemble`: a chain over
consecutively detected zones. -/
def fallback_connections (s : ℕ → ℕ) (c : ℕ) :
    List IngestedZone → List IngestedConnection
  | za :: zb :: rest =>
    { id := s c, from_zone_id := za.id, to_zone_id := zb.id,
      connection_type := "adjacency", position := none }
      :: fallback_connections s (c + 1) (zb :: rest)
  | _ => []

/-- The inner perch-point loop of `_assemble`: one perch point per
generated position, identifiers drawn sequentially. -/
def mk_perch_points (s : ℕ → ℕ) (c : ℕ) (zone : IngestedZone)
    (positions : List (ℚ × ℚ))
    (origin_x origin_y venue_lat venue_lon cosLat : ℚ) : List IngestedPerchPoint :=
  match positions with
  | [] => []
  | pos :: rest =>
    let pp :=
      meter_to_geo_point pos.1 pos.2 origin_x origin_y venue_lat venue_lon cosLat
    let surface := if zone.environment = "indoor" then "wall" else "ledge"
    let orientation := if surface = "wall" then "vertical" else "horizontal"
    let height : ℚ := if zone.environment = "indoor" then 3 else 5
    { id := s c, zone_id := zone.id, surface_class := surface,
      surface_orientation := orientation, tier_required := zone.tier_requirement,
      position_lat := pp.1, position_lon := pp.2, height_m := height,
      wall_normal := none,
      coverage_value := roundTo (2/5 + 3/10 * ((zone.coverage_priority : ℚ) / 9)) 2 }
      :: mk_perch_points s (c + 1) zone rest origin_x origin_y venue_lat venue_lon cosLat

/-- The outer perch-point loop of `_assemble`: per zone, look up its
planar ring in `zone_polys` by identifier (first match, skip when
absent), generate the candidate positions and emit the perch points. -/
def perch_blocks (s : ℕ → ℕ) (c : ℕ)
    (zone_polys : List (IngestedZone × List (ℚ × ℚ)))
    (zones : List IngestedZone)
    (origin_x origin_y venue_lat venue_lon cosLat : ℚ) : List IngestedPerchPoint :=
  match zones with
  | [] => []
  | zone :: rest =>
    match zone_polys.find? fun zp => zp.1.id == zone.id with
    | none =>
      perch_blocks s c zone_polys rest origin_x origin_y venue_lat venue_lon cosLat
    | some zp =>
      let blk :=
        mk_perch_points s c zone
          (generate_perch_positions zp.2 (num_perch zone.area_sq_m))
          origin_x origin_y venue_lat venue_lon cosLat
      blk ++ perch_blocks s (c + blk.length) zone_polys rest
          origin_x origin_y venue_lat venue_lon cosLat

set_option linter.unusedVariables false in
/-- `_assemble`.  `s` is the identifier supply (the `k`-th `uuid4()` of
this invocation is `s k`); `cosLat` is `cos(radians(venue_lat))`;
`wall_segments` is accepted and unused, as in the source. -/
def assemble (s : ℕ → ℕ) (room_polygons : List (List (ℚ × ℚ)))
    (door_positions : List (ℚ × ℚ))
    (wall_segments : List ((ℚ × ℚ) × (ℚ × ℚ)))
    (venue_lat venue_lon cosLat : ℚ) (floor_level : ℤ) : IngestionResult :=
  if room_polygons.isEmpty then
    { zones := [], connections := [], perch_points := [] }
  else
    let all_coords := room_polygons.flatMap closedRing
    let xs := all_coords.map (·.1)
    let ys := all_coords.map (·.2)
    let origin_x := (listMin xs + listMax xs) / 2
    let origin_y := (listMin ys + listMax ys) / 2
    let zones :=
      mk_zones s 0 room_polygons origin_x origin_y venue_lat venue_lon cosLat floor_level
    let zone_polys :=
      zones.map fun z => (z, zone_ring z origin_x origin_y venue_lat venue_lon cosLat)
    let dcs :=
      door_connections s zones.length zone_polys door_positions
        origin_x origin_y venue_lat venue_lon cosLat
    let connections :=
      if dcs.isEmpty && decide (1 < zones.length) then
        fallback_connections s zones.length zones
      else dcs
    let pps :=
      perch_blocks s (zones.length + connections.length) zone_polys zones
        origin_x origin_y venue_lat venue_lon cosLat
    { zones := zones, connections := connections, perch_points := pps }

/-- The per-page output of the raster extraction stages of
`_process_image` (binarization, contouring, Hough segments, door gaps
are `cv2` library calls and are not modelled): room polygons as open
vertex rings, door positions and wall segments, all in meters. -/
structure PageData where
  room_polygons : List (List (ℚ × ℚ)) := []
  door_positions : List (ℚ × ℚ) := []
  wall_segments : List ((ℚ × ℚ) × (ℚ × ℚ)) := []
deriving DecidableEq, Repr

/-- The assembly step of `_process_image`: hand the extracted page data
to `_assemble` with the given floor level. -/
def process_image (s : ℕ → ℕ) (page : PageData)
    (venue_lat venue_lon cosLat : ℚ) (floor_level : ℤ) : IngestionResult :=
  assemble s page.room_polygons page.door_positions page.wall_segments
    venue_lat venue_lon cosLat floor_level

/-- The multi-page loop of `_ingest_pdf`: page index `i` (0-based) is
processed at floor `floor_level + i`, every zone name on that page is
prefixed with its floor tag, and the per-page zones, connections and
perch points are concatenated in page order.  `s i` is the identifier
supply used while processing page `i`. -/
def combine_pages (s : ℕ → ℕ → ℕ) (i : ℕ) (pages : List PageData)
    (venue_lat venue_lon cosLat : ℚ) (floor_level : ℤ) : IngestionResult :=
  match pages with
  | [] => { zones := [], connections := [], perch_points := [] }
  | pg :: rest =>
    let current_floor := floor_level + (i : ℤ)
    let page_result := process_image (s i) pg venue_lat venue_lon cosLat current_floor
    let renamed := page_result.zones.map fun z =>
      { z with name := "F" ++ toString current_floor ++ " " ++ z.name }
    let restResult := combine_pages s (i + 1) rest venue_lat venue_lon cosLat floor_level
    { zones := renamed ++ restResult.zones,
      connections := page_result.connections ++ restResult.connections,
      perch_points := page_result.perch_points ++ restResult.perch_points }

/-- `_ingest_pdf` with `page_number=None`, after page rendering: zero
pages raise, one page is processed at the caller's floor level with no
name prefix, several pages take the multi-page loop. -/
def ingest_pdf_pages (s : ℕ → ℕ → ℕ) (pages : List PageData)
    (venue_lat venue_lon cosLat : ℚ) (floor_level : ℤ) :
    Except String IngestionResult :=
  match pages with
  | [] => .error "Could not extract any pages from PDF"
  | [pg] => .ok (process_image (s 0) pg venue_lat venue_lon cosLat floor_level)
  | _ => .ok (combine_pages s 0 pages venue_lat venue_lon cosLat floor_level)

/-- Apply an identifier renaming to a zone. -/
def relabel_zone (f : ℕ → ℕ) (z : IngestedZone) : IngestedZone :=
  { z with id := f z.id }

/-- Apply an identifier renaming to a connection (own id and both zone
references). -/
def relabel_conn (f : ℕ → ℕ) (c : IngestedConnection) : IngestedConnection :=
  { c with
    id := f c.id,
    from_zone_id := f c.from_zone_id,
    to_zone_id := f c.to_zone_id }

/-- Apply an identifier renaming to a perch point (own id and zone
reference). -/
def relabel_pp (f : ℕ → ℕ) (p : IngestedPerchPoint) : IngestedPerchPoint :=
  { p with id := f p.id, zone_id := f p.zone_id }

/-- Apply an identifier renaming to a whole result. -/
def relabel_result (f : ℕ → ℕ) (r : IngestionResult) : IngestionResult :=
  { zones := r.zones.map (relabel_zone f),
    connections := r.connections.map (relabel_conn f),
    perch_points := r.perch_points.map (relabel_pp f) }

lemma classify_room_eq (a : ℚ) :
    classify_room a =
      if a < 6 then "closet"
      else if a < 15 then "room"
      else if a < 30 then "corridor"
      else if a < 60 then "room"
      else "lobby" := by
  simp only [classify_room, ROOM_TYPE_BY_AREA, List.find?]
  by_cases h6 : a < 6 <;> by_cases h15 : a < 15 <;> by_cases h30 : a < 30 <;>
    by_cases h60 : a < 60 <;> by_cases h120 : a < 120 <;>
    simp [h6, h15, h30, h60, h120]

/-- C9: room classification is a pure step function of area with the
ascending thresholds 6, 15, 30, 60 (under 120 and over merge to
"lobby"), and the six sample areas classify as the spec lists. -/
theorem claim_C9_classify_room_step :
    (∀ a : ℚ, classify_room a =
      if a < 6 then "closet"
      else if a < 15 then "room"
      else if a < 30 then "corridor"
      else if a < 60 then "room"
      else "lobby") ∧
    [classify_room 5, classify_room 10, classify_room 25, classify_room 50,
        classify_room 100, classify_room 150] =
      ["closet", "room", "corridor", "room", "lobby", "lobby"] :=
  ⟨classify_room_eq, by with_unfolding_all decide⟩

lemma assemble_nil (s : ℕ → ℕ) (doors : List (ℚ × ℚ))
    (walls : List ((ℚ × ℚ) × (ℚ × ℚ))) (vlat vlon cosLat : ℚ) (fl : ℤ) :
    assemble s [] doors walls vlat vlon cosLat fl =
      { zones := [], connections := [], perch_points := [] } := rfl

lemma assemble_zones_ne_nil (s : ℕ → ℕ) (rooms : List (List (ℚ × ℚ)))
    (doors : List (ℚ × ℚ)) (walls : List ((ℚ × ℚ) × (ℚ × ℚ)))
    (vlat vlon cosLat : ℚ) (fl : ℤ) (h : rooms ≠ []) :
    (assemble s rooms doors walls vlat vlon cosLat fl).zones ≠ [] := by
  obtain ⟨ring, rest, rfl⟩ : ∃ ring rest, rooms = ring :: rest := by
    cases rooms with
    | nil => exact absurd rfl h
    | cons a l => exact ⟨a, l, rfl⟩
  simp [assemble, mk_zones]

/-- C3: the assembler maps an empty room-polygon list (whatever doors
and walls are supplied) to the empty result without error, and a result
with zero zones never carries connections or perch points. -/
theorem claim_C3_empty_input :
    (∀ s doors walls vlat vlon cosLat fl,
      assemble s [] doors walls vlat vlon cosLat fl =
        { zones := [], connections := [], perch_points := [] }) ∧
    (∀ s rooms doors walls vlat vlon cosLat fl,
      (assemble s rooms doors walls vlat vlon cosLat fl).zones = [] →
        (assemble s rooms doors walls vlat vlon cosLat fl).connections = [] ∧
        (assemble s rooms doors walls vlat vlon cosLat fl).perch_points = []) := by
  refine ⟨fun s doors walls vlat vlon cosLat fl => assemble_nil .., ?_⟩
  intro s rooms doors walls vlat vlon cosLat fl hz
  rcases eq_or_ne rooms [] with rfl | h
  · rw [assemble_nil]; exact ⟨rfl, rfl⟩
  · exact absurd hz (assemble_zones_ne_nil s rooms doors walls vlat vlon cosLat fl h)

lemma mem_mk_zones {z : IngestedZone} {s : ℕ → ℕ} {i : ℕ}
    {rooms : List (List (ℚ × ℚ))} {ox oy vlat vlon cosLat : ℚ} {fl : ℤ}
    (hz : z ∈ mk_zones s i rooms ox oy vlat vlon cosLat fl) :
    z.environment = "indoor" ∧ z.tier_requirement = "tier_1" ∧
      z.floor_level = fl := by
  induction rooms generalizing i with
  | nil => simp [mk_zones] at hz
  | cons ring rest ih =>
    rcases (by simpa [mk_zones] using hz :
        z = mk_zone (s i) i ring ox oy vlat vlon cosLat fl ∨
          z ∈ mk_zones s (i + 1) rest ox oy vlat vlon cosLat fl) with rfl | h
    · refine ⟨by simp [mk_zone], by simp [mk_zone], by simp [mk_zone]⟩
    · exact ih h

lemma mem_mk_perch_points {p : IngestedPerchPoint} {s : ℕ → ℕ} {c : ℕ}
    {zone : IngestedZone} {positions : List (ℚ × ℚ)}
    {ox oy vlat vlon cosLat : ℚ}
    (henv : zone.environment = "indoor")
    (hp : p ∈ mk_perch_points s c zone positions ox oy vlat vlon cosLat) :
    p.surface_class = "wall" ∧ p.surface_orientation = "vertical" ∧
      p.height_m = 3 ∧ p.tier_required = zone.tier_requirement ∧
      p.zone_id = zone.id := by
  induction positions generalizing c with
  | nil => simp [mk_perch_points] at hp
  | cons pos rest ih =>
    rw [mk_perch_points] at hp
    rcases List.mem_cons.mp hp with rfl | h
    · simp [henv]
    · exact ih h

lemma mem_perch_blocks {p : IngestedPerchPoint} {s : ℕ → ℕ} {c : ℕ}
    {zone_polys : List (IngestedZone × List (ℚ × ℚ))}
    {zones : List IngestedZone} {ox oy vlat vlon cosLat : ℚ}
    (hzs : ∀ z ∈ zones, z.environment = "indoor" ∧ z.tier_requirement = "tier_1")
    (hp : p ∈ perch_blocks s c zone_polys zones ox oy vlat vlon cosLat) :
    p.surface_class = "wall" ∧ p.surface_orientation = "vertical" ∧
      p.height_m = 3 ∧ p.tier_required = "tier_1" := by
  induction zones generalizing c with
  | nil => simp [perch_blocks] at hp
  | cons zone rest ih =>
    rw [perch_blocks] at hp
    rcases hfind : zone_polys.find? fun zp => zp.1.id == zone.id with _ | zp
    · rw [hfind] at hp
      exact ih (fun z hz => hzs z (List.mem_cons_of_mem _ hz)) hp
    · rw [hfind] at hp
      rcases List.mem_append.mp hp with h | h
      · obtain ⟨h1, h2, h3, h4, _⟩ :=
          mem_mk_perch_points (hzs zone (List.mem_cons_self _ _)).1 h
        exact ⟨h1, h2, h3, h4.trans (hzs zone (List.mem_cons_self _ _)).2⟩
      · exact ih (fun z hz => hzs z (List.mem_cons_of_mem _ hz)) h

/-- C10: every zone emitted by the assembler (any floor level, negative
included) is tagged environment "indoor" with tier requirement
"tier_1", and so every emitted perch point is a vertical wall surface at
3.0 m requiring "tier_1"; the outdoor/ledge/5.0 m branch is dead. -/
theorem claim_C10_indoor_invariants (s : ℕ → ℕ)
    (rooms : List (List (ℚ × ℚ))) (doors : List (ℚ × ℚ))
    (walls : List ((ℚ × ℚ) × (ℚ × ℚ))) (vlat vlon cosLat : ℚ) (fl : ℤ) :
    (∀ z ∈ (assemble s rooms doors walls vlat vlon cosLat fl).zones,
      z.environment = "indoor" ∧ z.tier_requirement = "tier_1") ∧
    (∀ p ∈ (assemble s rooms doors walls vlat vlon cosLat fl).perch_points,
      p.surface_class = "wall" ∧ p.surface_orientation = "vertical" ∧
        p.height_m = 3 ∧ p.tier_required = "tier_1") := by
  cases rooms with
  | nil => rw [assemble_nil]; exact ⟨by simp, by simp⟩
  | cons r rs =>
    constructor
    · intro z hz
      simp only [assemble, List.isEmpty_cons] at hz
      exact ⟨(mem_mk_zones hz).1, (mem_mk_zones hz).2.1⟩
    · intro p hp
      simp only [assemble, List.isEmpty_cons] at hp
      exact mem_perch_blocks
        (fun z hz => ⟨(mem_mk_zones hz).1, (mem_mk_zones hz).2.1⟩) hp

lemma abs_pyRound_sub (q : ℚ) : |(pyRound q : ℚ) - q| ≤ 1/2 := by
  have h0 : (0:ℚ) ≤ q - ⌊q⌋ := sub_nonneg.mpr (Int.floor_le q)
  have h1 : q - ⌊q⌋ < 1 := by
    have := Int.lt_floor_add_one q
    linarith
  simp only [pyRound]
  split_ifs with hlt hgt heven <;> push_cast <;> rw [abs_sub_comm, abs_le] <;>
    constructor <;> linarith

lemma abs_roundTo_sub (q : ℚ) (k : ℕ) :
    |roundTo q k - q| ≤ 1 / (2 * 10 ^ k) := by
  have hpow : (0:ℚ) < 10 ^ k := by positivity
  have h := abs_pyRound_sub (q * 10 ^ k)
  have : |roundTo q k - q| = |(pyRound (q * 10 ^ k) : ℚ) - q * 10 ^ k| / 10 ^ k := by
    rw [roundTo, ← abs_of_pos hpow, ← abs_div]
    congr 1
    field_simp
    ring
  rw [this]
  rw [div_le_div_iff₀ hpow (by positivity)]
  calc |(pyRound (q * 10 ^ k) : ℚ) - q * 10 ^ k| * (2 * 10 ^ k)
      ≤ (1/2) * (2 * 10 ^ k) := by
        apply mul_le_mul_of_nonneg_right h (by positivity)
    _ = 1 * 10 ^ k := by ring

/-- C1: for every planar point, local origin and anchor whose latitude
cosine is nonzero, the meters→geo transform (with its 8-decimal
rounding) followed by geo→meters reproduces each coordinate within
1e-3 m.  `c` stands for `cos(radians(venue_lat))`, so `|c| ≤ 1`. -/
theorem claim_C1_round_trip (x y ox oy vlat vlon c : ℚ)
    (hc : c ≠ 0) (hc1 : |c| ≤ 1) :
    |(geo_to_meters_point (meter_to_geo_point x y ox oy vlat vlon c).1
        (meter_to_geo_point x y ox oy vlat vlon c).2 ox oy vlat vlon c).1 - x|
      ≤ 1/1000 ∧
    |(geo_to_meters_point (meter_to_geo_point x y ox oy vlat vlon c).1
        (meter_to_geo_point x y ox oy vlat vlon c).2 ox oy vlat vlon c).2 - y|
      ≤ 1/1000 := by
  have h112 : ((111320:ℚ)) ≠ 0 := by norm_num
  simp only [meter_to_geo_point, geo_to_meters_point, METERS_PER_DEG_LAT]
  constructor
  · have hx : ox + (roundTo (vlon + (x - ox) / (111320 * c)) 8 - vlon) * (111320 * c) - x
        = (roundTo (vlon + (x - ox) / (111320 * c)) 8 -
            (vlon + (x - ox) / (111320 * c))) * (111320 * c) := by
      field_simp
      ring
    rw [hx, abs_mul]
    have h1 := abs_roundTo_sub (vlon + (x - ox) / (111320 * c)) 8
    have h2 : |(111320:ℚ) * c| ≤ 111320 := by
      rw [abs_mul]
      calc |(111320:ℚ)| * |c| ≤ |(111320:ℚ)| * 1 :=
            mul_le_mul_of_nonneg_left hc1 (abs_nonneg _)
        _ = 111320 := by norm_num
    calc |roundTo (vlon + (x - ox) / (111320 * c)) 8 -
            (vlon + (x - ox) / (111320 * c))| * |111320 * c|
        ≤ (1 / (2 * 10 ^ 8)) * 111320 := by
          exact mul_le_mul h1 h2 (abs_nonneg _) (by norm_num)
      _ ≤ 1/1000 := by norm_num
  · have hy : oy + (roundTo (vlat + (y - oy) / 111320) 8 - vlat) * 111320 - y
        = (roundTo (vlat + (y - oy) / 111320) 8 -
            (vlat + (y - oy) / 111320)) * 111320 := by
      field_simp
      ring
    rw [hy, abs_mul]
    have h1 := abs_roundTo_sub (vlat + (y - oy) / 111320) 8
    calc |roundTo (vlat + (y - oy) / 111320) 8 -
            (vlat + (y - oy) / 111320)| * |(111320:ℚ)|
        ≤ (1 / (2 * 10 ^ 8)) * 111320 := by
          apply mul_le_mul h1 (by norm_num) (abs_nonneg _) (by norm_num)
      _ ≤ 1/1000 := by norm_num

set_option maxRecDepth 100000 in
/-- Witness for C1 at a concrete point, origin and anchor. -/
theorem claim_C1_round_trip_witness :
    ((1/2 : ℚ) ≠ 0 ∧ |(1/2 : ℚ)| ≤ 1) ∧
    (|(geo_to_meters_point (meter_to_geo_point 3 4 1 1 10 20 (1/2)).1
        (meter_to_geo_point 3 4 1 1 10 20 (1/2)).2 1 1 10 20 (1/2)).1 - 3|
      ≤ 1/1000 ∧
    |(geo_to_meters_point (meter_to_geo_point 3 4 1 1 10 20 (1/2)).1
        (meter_to_geo_point 3 4 1 1 10 20 (1/2)).2 1 1 10 20 (1/2)).2 - 4|
      ≤ 1/1000) :=
  ⟨⟨by norm_num, by rw [abs_of_nonneg] <;> norm_num⟩,
    claim_C1_round_trip 3 4 1 1 10 20 (1/2) (by norm_num)
      (by rw [abs_of_nonneg] <;> norm_num)⟩

/-- The ordered endpoint pairs the `_detect_doors` loops range over:
for every pair of distinct wall segments (first segment earlier in the
list) the four endpoint combinations, one endpoint per segment. -/
def seg_endpoint_pairs : List ((ℚ × ℚ) × (ℚ × ℚ)) → List ((ℚ × ℚ) × (ℚ × ℚ))
  | [] => []
  | sa :: rest =>
    (rest.flatMap fun sb =>
      [(sa.1, sb.1), (sa.1, sb.2), (sa.2, sb.1), (sa.2, sb.2)])
      ++ seg_endpoint_pairs rest

lemma filter_flatMap_comm {α β : Type} (l : List α) (f : α → List β)
    (p : β → Bool) :
    (l.flatMap f).filter p = l.flatMap fun a => (f a).filter p := by
  induction l with
  | nil => simp
  | cons a t ih => simp [List.flatMap_cons, List.filter_append, ih]

lemma map_flatMap_comm {α β γ : Type} (l : List α) (f : α → List β)
    (g : β → γ) :
    (l.flatMap f).map g = l.flatMap fun a => (f a).map g := by
  induction l with
  | nil => simp
  | cons a t ih => simp [List.flatMap_cons, ih]

lemma door_candidates_inner (sa sb : (ℚ × ℚ) × (ℚ × ℚ)) :
    ([sa.1, sa.2].flatMap fun end_a =>
      [sb.1, sb.2].filterMap fun end_b =>
        if gap_accept end_a end_b then
          some ((end_a.1 + end_b.1) / 2, (end_a.2 + end_b.2) / 2)
        else none) =
      ([(sa.1, sb.1), (sa.1, sb.2), (sa.2, sb.1), (sa.2, sb.2)].filter
          fun pr => gap_accept pr.1 pr.2).map
        fun pr => ((pr.1.1 + pr.2.1) / 2, (pr.1.2 + pr.2.2) / 2) := by
  cases h11 : gap_accept sa.1 sb.1 <;> cases h12 : gap_accept sa.1 sb.2 <;>
    cases h21 : gap_accept sa.2 sb.1 <;> cases h22 : gap_accept sa.2 sb.2 <;>
    simp [List.filterMap, List.filter, h11, h12, h21, h22]

lemma door_candidates_eq (segs : List ((ℚ × ℚ) × (ℚ × ℚ))) :
    door_candidates segs =
      ((seg_endpoint_pairs segs).filter fun pr => gap_accept pr.1 pr.2).map
        fun pr => ((pr.1.1 + pr.2.1) / 2, (pr.1.2 + pr.2.2) / 2) := by
  induction segs with
  | nil => simp [door_candidates, seg_endpoint_pairs]
  | cons sa rest ih =>
    rw [door_candidates, seg_endpoint_pairs, List.filter_append, List.map_append,
      ← ih, filter_flatMap_comm, map_flatMap_comm]
    congr 1
    exact congrArg (List.flatMap rest) (funext fun sb => door_candidates_inner sa sb)

/-- C8: an endpoint pair (one endpoint per distinct wall segment) is a
door-gap candidate exactly when its Euclidean distance lies in the
closed interval [0.7, 1.5] (0.7 and 1.5 accepted, 0.69 and 1.51
rejected), and every candidate is recorded at the midpoint of the
pair. -/
theorem claim_C8_door_gap_bounds :
    (∀ end_a end_b : ℚ × ℚ,
      gap_accept end_a end_b = true ↔
        ((7/10 : ℝ) ≤ Real.sqrt ((sqDist end_a end_b : ℚ) : ℝ) ∧
          Real.sqrt ((sqDist end_a end_b : ℚ) : ℝ) ≤ 3/2)) ∧
    (∀ segs, door_candidates segs =
      ((seg_endpoint_pairs segs).filter fun pr => gap_accept pr.1 pr.2).map
        fun pr => ((pr.1.1 + pr.2.1) / 2, (pr.1.2 + pr.2.2) / 2)) ∧
    (gap_accept (0, 0) (7/10, 0) = true ∧ gap_accept (0, 0) (3/2, 0) = true ∧
      gap_accept (0, 0) (69/100, 0) = false ∧
      gap_accept (0, 0) (151/100, 0) = false) := by
  refine ⟨?_, door_candidates_eq, by with_unfolding_all decide⟩
  intro end_a end_b
  rw [gap_accept, Bool.and_eq_true, decide_eq_true_eq, decide_eq_true_eq]
  constructor
  · rintro ⟨h1, h2⟩
    constructor
    · rw [Real.le_sqrt' (by norm_num)]
      calc ((7:ℝ)/10) ^ 2 = ((49/100 : ℚ) : ℝ) := by norm_num
        _ ≤ _ := by exact_mod_cast h1
    · rw [Real.sqrt_le_left (by norm_num)]
      calc ((sqDist end_a end_b : ℚ) : ℝ) ≤ ((9/4 : ℚ) : ℝ) := by exact_mod_cast h2
        _ = (3/2 : ℝ) ^ 2 := by norm_num
  · rintro ⟨h1, h2⟩
    rw [Real.le_sqrt' (by norm_num)] at h1
    rw [Real.sqrt_le_left (by norm_num)] at h2
    constructor
    · have : ((49/100 : ℚ) : ℝ) ≤ ((sqDist end_a end_b : ℚ) : ℝ) := by
        calc ((49/100 : ℚ) : ℝ) = (7/10 : ℝ) ^ 2 := by norm_num
          _ ≤ _ := h1
      exact_mod_cast this
    · have : ((sqDist end_a end_b : ℚ) : ℝ) ≤ ((9/4 : ℚ) : ℝ) := by
        calc ((sqDist end_a end_b : ℚ) : ℝ) ≤ (3/2 : ℝ) ^ 2 := h2
          _ = ((9/4 : ℚ) : ℝ) := by norm_num
      exact_mod_cast this

/-- The bounding-box midpoint origin `_assemble` establishes (proof
accessor mirroring the let-chain of `assemble`). -/
def asm_origin (rooms : List (List (ℚ × ℚ))) : ℚ × ℚ :=
  ((listMin ((rooms.flatMap closedRing).map (·.1)) +
      listMax ((rooms.flatMap closedRing).map (·.1))) / 2,
   (listMin ((rooms.flatMap closedRing).map (·.2)) +
      listMax ((rooms.flatMap closedRing).map (·.2))) / 2)

/-- The zone list `assemble` builds (proof accessor). -/
def asm_zones (s : ℕ → ℕ) (rooms : List (List (ℚ × ℚ)))
    (vlat vlon cosLat : ℚ) (fl : ℤ) : List IngestedZone :=
  mk_zones s 0 rooms (asm_origin rooms).1 (asm_origin rooms).2 vlat vlon cosLat fl

/-- The zone/planar-ring pairs `assemble` builds (proof accessor). -/
def asm_zone_polys (s : ℕ → ℕ) (rooms : List (List (ℚ × ℚ)))
    (vlat vlon cosLat : ℚ) (fl : ℤ) : List (IngestedZone × List (ℚ × ℚ)) :=
  (asm_zones s rooms vlat vlon cosLat fl).map fun z =>
    (z, zone_ring z (asm_origin rooms).1 (asm_origin rooms).2 vlat vlon cosLat)

/-- The door connections `assemble` builds (proof accessor). -/
def asm_dcs (s : ℕ → ℕ) (rooms : List (List (ℚ × ℚ)))
    (doors : List (ℚ × ℚ)) (vlat vlon cosLat : ℚ) (fl : ℤ) :
    List IngestedConnection :=
  door_connections s (asm_zones s rooms vlat vlon cosLat fl).length
    (asm_zone_polys s rooms vlat vlon cosLat fl) doors
    (asm_origin rooms).1 (asm_origin rooms).2 vlat vlon cosLat

/-- The connection list `assemble` returns (proof accessor). -/
def asm_conns (s : ℕ → ℕ) (rooms : List (List (ℚ × ℚ)))
    (doors : List (ℚ × ℚ)) (vlat vlon cosLat : ℚ) (fl : ℤ) :
    List IngestedConnection :=
  if (asm_dcs s rooms doors vlat vlon cosLat fl).isEmpty &&
      decide (1 < (asm_zones s rooms vlat vlon cosLat fl).length) then
    fallback_connections s (asm_zones s rooms vlat vlon cosLat fl).length
      (asm_zones s rooms vlat vlon cosLat fl)
  else asm_dcs s rooms doors vlat vlon cosLat fl

/-- The perch points `assemble` returns (proof accessor). -/
def asm_pps (s : ℕ → ℕ) (rooms : List (List (ℚ × ℚ)))
    (doors : List (ℚ × ℚ)) (vlat vlon cosLat : ℚ) (fl : ℤ) :
    List IngestedPerchPoint :=
  perch_blocks s
    ((asm_zones s rooms vlat vlon cosLat fl).length +
      (asm_conns s rooms doors vlat vlon cosLat fl).length)
    (asm_zone_polys s rooms vlat vlon cosLat fl)
    (asm_zones s rooms vlat vlon cosLat fl)
    (asm_origin rooms).1 (asm_origin rooms).2 vlat vlon cosLat

lemma assemble_eq_of_ne_nil (s : ℕ → ℕ) (rooms : List (List (ℚ × ℚ)))
    (doors : List (ℚ × ℚ)) (walls : List ((ℚ × ℚ) × (ℚ × ℚ)))
    (vlat vlon cosLat : ℚ) (fl : ℤ) (h : rooms ≠ []) :
    assemble s rooms doors walls vlat vlon cosLat fl =
      { zones := asm_zones s rooms vlat vlon cosLat fl,
        connections := asm_conns s rooms doors vlat vlon cosLat fl,
        perch_points := asm_pps s rooms doors vlat vlon cosLat fl } := by
  cases rooms with
  | nil => exact absurd rfl h
  | cons r rs => rfl

lemma fallback_connections_length (s : ℕ → ℕ) (c : ℕ)
    (zones : List IngestedZone) :
    (fallback_connections s c zones).length = zones.length - 1 := by
  induction zones generalizing c with
  | nil => rfl
  | cons za rest ih =>
    cases rest with
    | nil => rfl
    | cons zb rest2 =>
      rw [fallback_connections]
      simp only [List.length_cons, ih]
      omega

lemma mem_fallback_connections_type {cn : IngestedConnection} {s : ℕ → ℕ}
    {c : ℕ} {zones : List IngestedZone}
    (h : cn ∈ fallback_connections s c zones) :
    cn.connection_type = "adjacency" := by
  induction zones generalizing c with
  | nil => simp [fallback_connections] at h
  | cons za rest ih =>
    cases rest with
    | nil => simp [fallback_connections] at h
    | cons zb rest2 =>
      rw [fallback_connections] at h
      rcases List.mem_cons.mp h with rfl | h
      · rfl
      · exact ih h

lemma fallback_connections_pairs (s : ℕ → ℕ) (c : ℕ)
    (zones : List IngestedZone) :
    (fallback_connections s c zones).map
        (fun cn => (cn.from_zone_id, cn.to_zone_id)) =
      (zones.map (·.id)).zip ((zones.map (·.id)).tail) := by
  induction zones generalizing c with
  | nil => rfl
  | cons za rest ih =>
    cases rest with
    | nil => rfl
    | cons zb rest2 =>
      rw [fallback_connections]
      simp only [List.map_cons, List.zip_cons_cons, List.tail_cons, ih]

lemma mem_door_connections_type {cn : IngestedConnection} {s : ℕ → ℕ} {c : ℕ}
    {zps : List (IngestedZone × List (ℚ × ℚ))} {doors : List (ℚ × ℚ)}
    {ox oy vlat vlon cosLat : ℚ}
    (h : cn ∈ door_connections s c zps doors ox oy vlat vlon cosLat) :
    cn.connection_type = "door" := by
  induction doors generalizing c with
  | nil => simp [door_connections] at h
  | cons dp rest ih =>
    rw [door_connections] at h
    rcases hs : List.insertionSort
        (fun a b => sqDistRingPoint a.2 dp ≤ sqDistRingPoint b.2 dp)
        (zps.filter fun zp => decide (sqDistRingPoint zp.2 dp < 9/4)) with
      _ | ⟨za, _ | ⟨zb, srest⟩⟩
    · rw [hs] at h; exact ih h
    · rw [hs] at h; exact ih h
    · rw [hs] at h
      rcases List.mem_cons.mp h with rfl | h
      · rfl
      · exact ih h

/-- C5: when the assembler produces more than one zone and no
door-based connections, the result's connections are exactly a chain of
`zones.length - 1` `adjacency` links between consecutively detected
zones. -/
theorem claim_C5_adjacency_fallback_chain (s : ℕ → ℕ)
    (rooms : List (List (ℚ × ℚ))) (doors : List (ℚ × ℚ))
    (walls : List ((ℚ × ℚ) × (ℚ × ℚ))) (vlat vlon cosLat : ℚ) (fl : ℤ)
    (hnodoor : ∀ cn ∈ (assemble s rooms doors walls vlat vlon cosLat fl).connections,
      cn.connection_type ≠ "door")
    (hmulti : 1 < (assemble s rooms doors walls vlat vlon cosLat fl).zones.length) :
    (assemble s rooms doors walls vlat vlon cosLat fl).connections.length =
        (assemble s rooms doors walls vlat vlon cosLat fl).zones.length - 1 ∧
    (∀ cn ∈ (assemble s rooms doors walls vlat vlon cosLat fl).connections,
      cn.connection_type = "adjacency") ∧
    (assemble s rooms doors walls vlat vlon cosLat fl).connections.map
        (fun cn => (cn.from_zone_id, cn.to_zone_id)) =
      ((assemble s rooms doors walls vlat vlon cosLat fl).zones.map (·.id)).zip
        (((assemble s rooms doors walls vlat vlon cosLat fl).zones.map (·.id)).tail) := by
  have hne : rooms ≠ [] := by
    rintro rfl
    rw [assemble_nil] at hmulti
    simp at hmulti
  rw [assemble_eq_of_ne_nil s rooms doors walls vlat vlon cosLat fl hne]
    at hnodoor hmulti ⊢
  simp only at hnodoor hmulti ⊢
  have hdcs : asm_dcs s rooms doors vlat vlon cosLat fl = [] := by
    by_contra hne2
    obtain ⟨cn, hcn⟩ := List.exists_mem_of_ne_nil _ hne2
    refine hnodoor cn ?_ (mem_door_connections_type hcn)
    rw [asm_conns, if_neg]
    · exact hcn
    · simp [List.isEmpty_eq_false.mpr hne2]
  have hconns : asm_conns s rooms doors vlat vlon cosLat fl =
      fallback_connections s (asm_zones s rooms vlat vlon cosLat fl).length
        (asm_zones s rooms vlat vlon cosLat fl) := by
    rw [asm_conns, if_pos]
    simp [hdcs, hmulti]
  rw [hconns]
  exact ⟨fallback_connections_length .., fun cn hcn =>
    mem_fallback_connections_type hcn, fallback_connections_pairs ..⟩

/-- Identity identifier supply used to instantiate theorems. -/
def idSupply : ℕ → ℕ := fun n => n

/-- Three axis-aligned rectangular rooms (areas 5, 20 and 50 m²). -/
def sampleRooms : List (List (ℚ × ℚ)) :=
  [[(0, 0), (1, 0), (1, 5), (0, 5)],
   [(10, 0), (14, 0), (14, 5), (10, 5)],
   [(30, 0), (35, 0), (35, 10), (30, 10)]]

set_option maxRecDepth 1000000 in
/-- Witness for C3 at a concrete invocation. -/
theorem claim_C3_empty_input_witness :
    assemble idSupply [] [(1, 1)] [((0, 0), (0, 2))] 5 6 1 2 =
        { zones := [], connections := [], perch_points := [] } ∧
    ((assemble idSupply [] [(1, 1)] [((0, 0), (0, 2))] 5 6 1 2).connections = [] ∧
      (assemble idSupply [] [(1, 1)] [((0, 0), (0, 2))] 5 6 1 2).perch_points = []) :=
  ⟨claim_C3_empty_input.1 idSupply [(1, 1)] [((0, 0), (0, 2))] 5 6 1 2,
    claim_C3_empty_input.2 idSupply [] [(1, 1)] [((0, 0), (0, 2))] 5 6 1 2
      (by with_unfolding_all decide)⟩

set_option maxRecDepth 1000000 in
/-- Witness for C5: three zones, no detected doors, exactly two
adjacency connections chaining consecutive zones. -/
theorem claim_C5_adjacency_fallback_chain_witness :
    ((∀ cn ∈ (assemble idSupply sampleRooms [] [] 0 0 1 0).connections,
        cn.connection_type ≠ "door") ∧
      1 < (assemble idSupply sampleRooms [] [] 0 0 1 0).zones.length) ∧
    ((assemble idSupply sampleRooms [] [] 0 0 1 0).connections.length =
        (assemble idSupply sampleRooms [] [] 0 0 1 0).zones.length - 1 ∧
      (∀ cn ∈ (assemble idSupply sampleRooms [] [] 0 0 1 0).connections,
        cn.connection_type = "adjacency") ∧
      (assemble idSupply sampleRooms [] [] 0 0 1 0).connections.map
          (fun cn => (cn.from_zone_id, cn.to_zone_id)) =
        ((assemble idSupply sampleRooms [] [] 0 0 1 0).zones.map (·.id)).zip
          (((assemble idSupply sampleRooms [] [] 0 0 1 0).zones.map (·.id)).tail)) ∧
    (assemble idSupply sampleRooms [] [] 0 0 1 0).zones.length = 3 ∧
    (assemble idSupply sampleRooms [] [] 0 0 1 0).connections.length = 2 :=
  ⟨⟨by with_unfolding_all decide, by with_unfolding_all decide⟩,
    claim_C5_adjacency_fallback_chain idSupply sampleRooms [] [] 0 0 1 0
      (by with_unfolding_all decide) (by with_unfolding_all decide),
    by with_unfolding_all decide, by with_unfolding_all decide⟩

lemma headI_mem {A : Type} [Inhabited A] {l : List A} (h : l ≠ []) :
    l.headI ∈ l := by
  cases l with
  | nil => exact absurd rfl h
  | cons a t => exact List.mem_cons_self a t

set_option maxRecDepth 1000000 in
/-- Witness for C10 at a concrete invocation with a negative floor. -/
theorem claim_C10_indoor_invariants_witness :
    ((assemble idSupply [[(0, 0), (4, 0), (0, 4)]] [] [] 0 0 1 (-2)).zones.headI.environment =
        "indoor" ∧
      (assemble idSupply [[(0, 0), (4, 0), (0, 4)]] [] [] 0 0 1
          (-2)).zones.headI.tier_requirement = "tier_1") ∧
    ((assemble idSupply [[(0, 0), (4, 0), (0, 4)]] [] [] 0 0 1
          (-2)).perch_points.headI.surface_class = "wall" ∧
      (assemble idSupply [[(0, 0), (4, 0), (0, 4)]] [] [] 0 0 1
          (-2)).perch_points.headI.surface_orientation = "vertical" ∧
      (assemble idSupply [[(0, 0), (4, 0), (0, 4)]] [] [] 0 0 1
          (-2)).perch_points.headI.height_m = 3 ∧
      (assemble idSupply [[(0, 0), (4, 0), (0, 4)]] [] [] 0 0 1
          (-2)).perch_points.headI.tier_required = "tier_1") :=
  ⟨(claim_C10_indoor_invariants idSupply [[(0, 0), (4, 0), (0, 4)]] [] [] 0 0 1 (-2)).1 _
      (headI_mem (by with_unfolding_all decide)),
    (claim_C10_indoor_invariants idSupply [[(0, 0), (4, 0), (0, 4)]] [] [] 0 0 1 (-2)).2 _
      (headI_mem (by with_unfolding_all decide))⟩

lemma ringEdges_length (ring : List (ℚ × ℚ)) :
    (ringEdges ring).length = ring.length := by
  cases ring with
  | nil => rfl
  | cons x xs => simp [ringEdges, closedRing]

lemma generate_perch_positions_length (ring : List (ℚ × ℚ)) (count : ℕ) :
    (generate_perch_positions ring count).length =
      if ring.length < 2 then 1 else min count ring.length := by
  rw [generate_perch_positions]
  split_ifs with h
  · rfl
  · rw [List.length_take, List.length_insertionSort, List.length_map,
      ringEdges_length]

lemma mk_perch_points_length (s : ℕ → ℕ) (c : ℕ) (zone : IngestedZone)
    (positions : List (ℚ × ℚ)) (ox oy vlat vlon cosLat : ℚ) :
    (mk_perch_points s c zone positions ox oy vlat vlon cosLat).length =
      positions.length := by
  induction positions generalizing c with
  | nil => rfl
  | cons pos rest ih => rw [mk_perch_points]; simp [ih]

lemma mem_mk_perch_points_zone_id {p : IngestedPerchPoint} {s : ℕ → ℕ} {c : ℕ}
    {zone : IngestedZone} {positions : List (ℚ × ℚ)}
    {ox oy vlat vlon cosLat : ℚ}
    (hp : p ∈ mk_perch_points s c zone positions ox oy vlat vlon cosLat) :
    p.zone_id = zone.id := by
  induction positions generalizing c with
  | nil => simp [mk_perch_points] at hp
  | cons pos rest ih =>
    rw [mk_perch_points] at hp
    rcases List.mem_cons.mp hp with rfl | h
    · rfl
    · exact ih h

lemma mem_perch_blocks_zone_id {p : IngestedPerchPoint} {s : ℕ → ℕ} {c : ℕ}
    {zps : List (IngestedZone × List (ℚ × ℚ))} {zones : List IngestedZone}
    {ox oy vlat vlon cosLat : ℚ}
    (hp : p ∈ perch_blocks s c zps zones ox oy vlat vlon cosLat) :
    ∃ w ∈ zones, p.zone_id = w.id := by
  induction zones generalizing c with
  | nil => simp [perch_blocks] at hp
  | cons zone rest ih =>
    rw [perch_blocks] at hp
    rcases hfind : zps.find? fun zp => zp.1.id == zone.id with _ | zp
    · rw [hfind] at hp
      obtain ⟨w, hw, he⟩ := ih hp
      exact ⟨w, List.mem_cons_of_mem _ hw, he⟩
    · rw [hfind] at hp
      rcases List.mem_append.mp hp with h | h
      · exact ⟨zone, List.mem_cons_self _ _, mem_mk_perch_points_zone_id h⟩
      · obtain ⟨w, hw, he⟩ := ih h
        exact ⟨w, List.mem_cons_of_mem _ hw, he⟩

lemma find?_zone_pairs {zones : List IngestedZone} {z : IngestedZone}
    (F : IngestedZone → List (ℚ × ℚ))
    (hnd : (zones.map (·.id)).Nodup) (hz : z ∈ zones) :
    (zones.map fun w => (w, F w)).find? (fun zp => zp.1.id == z.id) =
      some (z, F z) := by
  induction zones with
  | nil => cases hz
  | cons w rest ih =>
    simp only [List.map_cons, List.nodup_cons, List.mem_map] at hnd
    rcases List.mem_cons.mp hz with rfl | hz2
    · simp [List.map_cons, List.find?]
    · have hne : (w.id == z.id) = false := by
        simp only [beq_eq_false_iff_ne, ne_eq]
        intro he
        exact hnd.1 ⟨z, hz2, he.symm⟩
      rw [List.map_cons, List.find?_cons_of_neg _ (by simp [hne])]
      exact ih hnd.2 hz2

lemma perch_blocks_filter_count {s : ℕ → ℕ} {c : ℕ}
    {zps : List (IngestedZone × List (ℚ × ℚ))} {zones : List IngestedZone}
    {ox oy vlat vlon cosLat : ℚ} {z : IngestedZone}
    (F : IngestedZone → List (ℚ × ℚ))
    (hz : z ∈ zones) (hnd : (zones.map (·.id)).Nodup)
    (hfind : ∀ w ∈ zones,
      zps.find? (fun zp => zp.1.id == w.id) = some (w, F w)) :
    ((perch_blocks s c zps zones ox oy vlat vlon cosLat).filter
        (fun p => p.zone_id == z.id)).length =
      (generate_perch_positions (F z) (num_perch z.area_sq_m)).length := by
  induction zones generalizing c with
  | nil => cases hz
  | cons zone rest ih =>
    simp only [List.map_cons, List.nodup_cons, List.mem_map] at hnd
    rw [perch_blocks, hfind zone (List.mem_cons_self _ _)]
    rw [List.filter_append, List.length_append]
    rcases List.mem_cons.mp hz with rfl | hz2
    · have hblk : (mk_perch_points s c z
          (generate_perch_positions (F z) (num_perch z.area_sq_m))
          ox oy vlat vlon cosLat).filter (fun p => p.zone_id == z.id) =
            mk_perch_points s c z
              (generate_perch_positions (F z) (num_perch z.area_sq_m))
              ox oy vlat vlon cosLat := by
        rw [List.filter_eq_self]
        intro p hp
        simp [mem_mk_perch_points_zone_id hp]
      have hrest : (perch_blocks s
          (c + (mk_perch_points s c z
            (generate_perch_positions (F z) (num_perch z.area_sq_m))
            ox oy vlat vlon cosLat).length) zps rest
            ox oy vlat vlon cosLat).filter (fun p => p.zone_id == z.id) = [] := by
        rw [List.filter_eq_nil_iff]
        intro p hp
        obtain ⟨w, hw, he⟩ := mem_perch_blocks_zone_id hp
        simp only [beq_iff_eq, he, ne_eq]
        intro hid
        exact hnd.1 ⟨w, hw, hid⟩
      rw [hblk, hrest, mk_perch_points_length]
      simp
    · have hblk : (mk_perch_points s c zone
          (generate_perch_positions (F zone) (num_perch zone.area_sq_m))
          ox oy vlat vlon cosLat).filter (fun p => p.zone_id == z.id) = [] := by
        rw [List.filter_eq_nil_iff]
        intro p hp
        have := mem_mk_perch_points_zone_id hp
        simp only [this, beq_iff_eq]
        intro hid
        exact hnd.1 ⟨z, hz2, hid.symm⟩
      rw [hblk]
      simp only [List.length_nil, Nat.zero_add]
      exact ih hz2 hnd.2 fun w hw => hfind w (List.mem_cons_of_mem _ hw)

lemma zone_ring_length (z : IngestedZone) (ox oy vlat vlon cosLat : ℚ) :
    (zone_ring z ox oy vlat vlon cosLat).length = z.polygon.length - 1 := by
  rw [zone_ring, List.length_dropLast, geo_to_meters, List.length_map]

lemma mk_zones_ids (s : ℕ → ℕ) (i : ℕ) (rooms : List (List (ℚ × ℚ)))
    (ox oy vlat vlon cosLat : ℚ) (fl : ℤ) :
    (mk_zones s i rooms ox oy vlat vlon cosLat fl).map (·.id) =
      (List.range' i rooms.length).map s := by
  induction rooms generalizing i with
  | nil => rfl
  | cons ring rest ih =>
    simp only [mk_zones, List.map_cons, List.length_cons, List.range']
    exact congrArg _ (ih (i + 1))

lemma asm_zones_ids_nodup {s : ℕ → ℕ} (hinj : Function.Injective s)
    (rooms : List (List (ℚ × ℚ))) (vlat vlon cosLat : ℚ) (fl : ℤ) :
    ((asm_zones s rooms vlat vlon cosLat fl).map (·.id)).Nodup := by
  rw [asm_zones, mk_zones_ids]
  exact (List.nodup_range' 0 rooms.length).map hinj

/-- C2 (amended): every zone receives
`min (clamp (floor(area/15), 1, 4), E)` perch points, where `E` is the
number of edges of the zone's polygon (`polygon.length - 1`, the stored
ring being closed), with 1 perch point when the planar ring degenerates
below 2 vertices; identifiers drawn by the supply are assumed distinct
(uuid4 uniqueness). -/
theorem claim_C2_perch_count_amended (s : ℕ → ℕ)
    (rooms : List (List (ℚ × ℚ))) (doors : List (ℚ × ℚ))
    (walls : List ((ℚ × ℚ) × (ℚ × ℚ))) (vlat vlon cosLat : ℚ) (fl : ℤ)
    (hinj : Function.Injective s) :
    ∀ z ∈ (assemble s rooms doors walls vlat vlon cosLat fl).zones,
      ((assemble s rooms doors walls vlat vlon cosLat fl).perch_points.filter
          (fun p => p.zone_id == z.id)).length =
        if z.polygon.length - 1 < 2 then 1
        else min (num_perch z.area_sq_m) (z.polygon.length - 1) := by
  intro z hz
  have hne : rooms ≠ [] := by
    rintro rfl
    rw [assemble_nil] at hz
    simp at hz
  rw [assemble_eq_of_ne_nil s rooms doors walls vlat vlon cosLat fl hne] at hz ⊢
  simp only at hz ⊢
  have hnd := asm_zones_ids_nodup hinj rooms vlat vlon cosLat fl
  have hfind : ∀ w ∈ asm_zones s rooms vlat vlon cosLat fl,
      (asm_zone_polys s rooms vlat vlon cosLat fl).find?
          (fun zp => zp.1.id == w.id) =
        some (w, zone_ring w (asm_origin rooms).1 (asm_origin rooms).2
          vlat vlon cosLat) := by
    intro w hw
    rw [asm_zone_polys]
    exact find?_zone_pairs _ hnd hw
  rw [asm_pps, perch_blocks_filter_count
    (fun w => zone_ring w (asm_origin rooms).1 (asm_origin rooms).2 vlat vlon cosLat)
    hz hnd hfind]
  rw [generate_perch_positions_length, zone_ring_length]

set_option maxRecDepth 1000000 in
/-- C2 counterexample: a single triangular zone of area 200 m² (clamp
gives 4) receives only 3 perch points — one per edge — so the perch
count is not `clamp(floor(area/15), 1, 4)` regardless of edge count. -/
theorem claim_C2_perch_count_counterexample :
    (assemble idSupply [[(0, 0), (20, 0), (0, 20)]] [] [] 0 0 1 0).zones.map
        (fun z =>
          (((assemble idSupply [[(0, 0), (20, 0), (0, 20)]] [] [] 0 0 1
              0).perch_points.filter (fun p => p.zone_id == z.id)).length,
            num_perch z.area_sq_m)) = [(3, 4)] ∧ (3 : ℕ) ≠ 4 := by
  constructor
  · with_unfolding_all decide
  · decide

/-- Four axis-aligned rectangular rooms (areas 5, 20, 50, 200 m²). -/
def sampleRooms4 : List (List (ℚ × ℚ)) :=
  [[(0, 0), (1, 0), (1, 5), (0, 5)],
   [(10, 0), (14, 0), (14, 5), (10, 5)],
   [(30, 0), (35, 0), (35, 10), (30, 10)],
   [(50, 0), (60, 0), (60, 20), (50, 20)]]

set_option maxRecDepth 1000000 in
/-- Witness for the amended C2: on four rectangular (4-edge) zones of
areas 5, 20, 50, 200 m² the per-zone perch counts are 1, 1, 3, 4. -/
theorem claim_C2_perch_count_amended_witness :
    (((assemble idSupply sampleRooms4 [] [] 0 0 1 0).perch_points.filter
        (fun p => p.zone_id ==
          (assemble idSupply sampleRooms4 [] [] 0 0 1 0).zones.headI.id)).length =
      if (assemble idSupply sampleRooms4 [] [] 0 0 1
            0).zones.headI.polygon.length - 1 < 2 then 1
      else min (num_perch (assemble idSupply sampleRooms4 [] [] 0 0 1
            0).zones.headI.area_sq_m)
        ((assemble idSupply sampleRooms4 [] [] 0 0 1
            0).zones.headI.polygon.length - 1)) ∧
    (assemble idSupply sampleRooms4 [] [] 0 0 1 0).zones.map
        (fun z => ((assemble idSupply sampleRooms4 [] [] 0 0 1
            0).perch_points.filter (fun p => p.zone_id == z.id)).length) =
      [1, 1, 3, 4] :=
  ⟨claim_C2_perch_count_amended idSupply sampleRooms4 [] [] 0 0 1 0
      (fun a b h => h) _ (headI_mem (by with_unfolding_all decide)),
    by with_unfolding_all decide⟩

lemma mem_door_connections_ids {cn : IngestedConnection} {s : ℕ → ℕ} {c : ℕ}
    {zps : List (IngestedZone × List (ℚ × ℚ))} {doors : List (ℚ × ℚ)}
    {ox oy vlat vlon cosLat : ℚ}
    (hnd : (zps.map (·.1.id)).Nodup)
    (h : cn ∈ door_connections s c zps doors ox oy vlat vlon cosLat) :
    (∃ zp ∈ zps, cn.from_zone_id = zp.1.id) ∧
      (∃ zp ∈ zps, cn.to_zone_id = zp.1.id) ∧
      cn.from_zone_id ≠ cn.to_zone_id := by
  induction doors generalizing c with
  | nil => simp [door_connections] at h
  | cons dp rest ih =>
    rw [door_connections] at h
    rcases hs : List.insertionSort
        (fun a b => sqDistRingPoint a.2 dp ≤ sqDistRingPoint b.2 dp)
        (zps.filter fun zp => decide (sqDistRingPoint zp.2 dp < 9/4)) with
      _ | ⟨za, _ | ⟨zb, srest⟩⟩
    · rw [hs] at h; exact ih h
    · rw [hs] at h; exact ih h
    · rw [hs] at h
      rcases List.mem_cons.mp h with rfl | h
      · have hperm := List.perm_insertionSort
          (fun a b => sqDistRingPoint a.2 dp ≤ sqDistRingPoint b.2 dp)
          (zps.filter fun zp => decide (sqDistRingPoint zp.2 dp < 9/4))
        rw [hs] at hperm
        have hsub :
            ((zps.filter fun zp =>
              decide (sqDistRingPoint zp.2 dp < 9/4)).map (·.1.id)).Sublist
              (zps.map (·.1.id)) := (List.filter_sublist _).map _
        have hnds : ((za :: zb :: srest).map (·.1.id)).Nodup :=
          (hperm.map (·.1.id)).nodup_iff.mpr (hnd.sublist hsub)
        have hmemza : za ∈ zps :=
          List.mem_of_mem_filter (hperm.mem_iff.mp (List.mem_cons_self _ _))
        have hmemzb : zb ∈ zps :=
          List.mem_of_mem_filter (hperm.mem_iff.mp
            (List.mem_cons_of_mem _ (List.mem_cons_self _ _)))
        refine ⟨⟨za, hmemza, rfl⟩, ⟨zb, hmemzb, rfl⟩, ?_⟩
        rw [List.map_cons] at hnds
        have hnotmem := (List.nodup_cons.mp hnds).1
        exact fun he =>
          hnotmem (List.mem_map.mpr ⟨zb, List.mem_cons_self _ _, he.symm⟩)
      · exact ih h

lemma mem_fallback_connections_ids {cn : IngestedConnection} {s : ℕ → ℕ}
    {c : ℕ} {zones : List IngestedZone}
    (hnd : (zones.map (·.id)).Nodup)
    (h : cn ∈ fallback_connections s c zones) :
    (∃ z ∈ zones, cn.from_zone_id = z.id) ∧
      (∃ z ∈ zones, cn.to_zone_id = z.id) ∧
      cn.from_zone_id ≠ cn.to_zone_id := by
  induction zones generalizing c with
  | nil => simp [fallback_connections] at h
  | cons za rest ih =>
    cases rest with
    | nil => simp [fallback_connections] at h
    | cons zb rest2 =>
      rw [List.map_cons] at hnd
      have hnotmem := (List.nodup_cons.mp hnd).1
      have hndtail := (List.nodup_cons.mp hnd).2
      rw [fallback_connections] at h
      rcases List.mem_cons.mp h with rfl | h
      · refine ⟨⟨za, List.mem_cons_self _ _, rfl⟩,
          ⟨zb, List.mem_cons_of_mem _ (List.mem_cons_self _ _), rfl⟩, ?_⟩
        exact fun he =>
          hnotmem (List.mem_map.mpr ⟨zb, List.mem_cons_self _ _, he.symm⟩)
      · obtain ⟨⟨z1, hz1, he1⟩, ⟨z2, hz2, he2⟩, hne⟩ := ih hndtail h
        exact ⟨⟨z1, List.mem_cons_of_mem _ hz1, he1⟩,
          ⟨z2, List.mem_cons_of_mem _ hz2, he2⟩, hne⟩

/-- C4: in every assembler result (with distinct identifier draws,
i.e. uuid4 uniqueness), every connection references two zone
identifiers that both occur among the result's zones, and the from-zone
differs from the to-zone. -/
theorem claim_C4_connection_referential_integrity (s : ℕ → ℕ)
    (rooms : List (List (ℚ × ℚ))) (doors : List (ℚ × ℚ))
    (walls : List ((ℚ × ℚ) × (ℚ × ℚ))) (vlat vlon cosLat : ℚ) (fl : ℤ)
    (hinj : Function.Injective s) :
    ∀ cn ∈ (assemble s rooms doors walls vlat vlon cosLat fl).connections,
      (∃ z ∈ (assemble s rooms doors walls vlat vlon cosLat fl).zones,
        cn.from_zone_id = z.id) ∧
      (∃ z ∈ (assemble s rooms doors walls vlat vlon cosLat fl).zones,
        cn.to_zone_id = z.id) ∧
      cn.from_zone_id ≠ cn.to_zone_id := by
  intro cn hcn
  rcases eq_or_ne rooms [] with rfl | hne
  · rw [assemble_nil] at hcn
    simp at hcn
  rw [assemble_eq_of_ne_nil s rooms doors walls vlat vlon cosLat fl hne] at hcn ⊢
  simp only at hcn ⊢
  have hnd := asm_zones_ids_nodup hinj rooms vlat vlon cosLat fl
  rw [asm_conns] at hcn
  split at hcn
  · exact mem_fallback_connections_ids hnd hcn
  · have hndp : ((asm_zone_polys s rooms vlat vlon cosLat fl).map
        (·.1.id)).Nodup := by
      rw [asm_zone_polys, List.map_map]
      exact hnd
    obtain ⟨⟨zp1, hzp1, he1⟩, ⟨zp2, hzp2, he2⟩, hne12⟩ :=
      mem_door_connections_ids hndp hcn
    rw [asm_zone_polys] at hzp1 hzp2
    obtain ⟨z1, hz1, rfl⟩ := List.mem_map.mp hzp1
    obtain ⟨z2, hz2, rfl⟩ := List.mem_map.mp hzp2
    exact ⟨⟨z1, hz1, he1⟩, ⟨z2, hz2, he2⟩, hne12⟩

set_option maxRecDepth 1000000 in
/-- Witness for C4 at a concrete invocation with a nonempty connection
list. -/
theorem claim_C4_connection_referential_integrity_witness :
    (∃ z ∈ (assemble idSupply sampleRooms [] [] 0 0 1 0).zones,
      (assemble idSupply sampleRooms [] [] 0 0 1
          0).connections.headI.from_zone_id = z.id) ∧
    (∃ z ∈ (assemble idSupply sampleRooms [] [] 0 0 1 0).zones,
      (assemble idSupply sampleRooms [] [] 0 0 1
          0).connections.headI.to_zone_id = z.id) ∧
    (assemble idSupply sampleRooms [] [] 0 0 1
        0).connections.headI.from_zone_id ≠
      (assemble idSupply sampleRooms [] [] 0 0 1
          0).connections.headI.to_zone_id :=
  claim_C4_connection_referential_integrity idSupply sampleRooms [] [] 0 0 1 0
    (fun a b h => h) _ (headI_mem (by with_unfolding_all decide))

lemma assemble_floor {s : ℕ → ℕ} {rooms : List (List (ℚ × ℚ))}
    {doors : List (ℚ × ℚ)} {walls : List ((ℚ × ℚ) × (ℚ × ℚ))}
    {vlat vlon cosLat : ℚ} {fl : ℤ} :
    ∀ z ∈ (assemble s rooms doors walls vlat vlon cosLat fl).zones,
      z.floor_level = fl := by
  intro z hz
  cases rooms with
  | nil => rw [assemble_nil] at hz; simp at hz
  | cons r rs =>
    simp only [assemble, List.isEmpty_cons] at hz
    exact (mem_mk_zones hz).2.2

lemma combine_pages_spec (s : ℕ → ℕ → ℕ) (pages : List PageData)
    (vlat vlon cosLat : ℚ) (L : ℤ) (i : ℕ) :
    (combine_pages s i pages vlat vlon cosLat L).zones =
      (pages.enumFrom i).flatMap (fun ip =>
        (process_image (s ip.1) ip.2 vlat vlon cosLat
            (L + (ip.1 : ℤ))).zones.map
          (fun z => { z with
            name := "F" ++ toString (L + (ip.1 : ℤ)) ++ " " ++ z.name })) ∧
    (combine_pages s i pages vlat vlon cosLat L).connections =
      (pages.enumFrom i).flatMap (fun ip =>
        (process_image (s ip.1) ip.2 vlat vlon cosLat
            (L + (ip.1 : ℤ))).connections) ∧
    (combine_pages s i pages vlat vlon cosLat L).perch_points =
      (pages.enumFrom i).flatMap (fun ip =>
        (process_image (s ip.1) ip.2 vlat vlon cosLat
            (L + (ip.1 : ℤ))).perch_points) := by
  induction pages generalizing i with
  | nil => exact ⟨rfl, rfl, rfl⟩
  | cons pg rest ih =>
    obtain ⟨ihz, ihc, ihp⟩ := ih (i + 1)
    refine ⟨?_, ?_, ?_⟩ <;>
      simp only [combine_pages, List.enumFrom, List.flatMap_cons, ihz, ihc, ihp]

/-- C6: a multi-page document (k > 1 pages, no page selector) is
combined page-by-page: page index i is assembled at floor L + i, its
zone names get the `F{L+i}` tag, and zones, connections and perch
points are concatenated in page order; every zone from page i carries
floor level L + i. -/
theorem claim_C6_multipage_floors (s : ℕ → ℕ → ℕ) (pages : List PageData)
    (vlat vlon cosLat : ℚ) (L : ℤ) (h2 : 1 < pages.length) :
    (∃ r, ingest_pdf_pages s pages vlat vlon cosLat L = .ok r ∧
      r.zones = (pages.enumFrom 0).flatMap (fun ip =>
        (process_image (s ip.1) ip.2 vlat vlon cosLat
            (L + (ip.1 : ℤ))).zones.map
          (fun z => { z with
            name := "F" ++ toString (L + (ip.1 : ℤ)) ++ " " ++ z.name })) ∧
      r.connections = (pages.enumFrom 0).flatMap (fun ip =>
        (process_image (s ip.1) ip.2 vlat vlon cosLat
            (L + (ip.1 : ℤ))).connections) ∧
      r.perch_points = (pages.enumFrom 0).flatMap (fun ip =>
        (process_image (s ip.1) ip.2 vlat vlon cosLat
            (L + (ip.1 : ℤ))).perch_points)) ∧
    (∀ ip ∈ pages.enumFrom 0,
      ∀ z' ∈ (process_image (s ip.1) ip.2 vlat vlon cosLat
            (L + (ip.1 : ℤ))).zones.map
          (fun z => { z with
            name := "F" ++ toString (L + (ip.1 : ℤ)) ++ " " ++ z.name }),
        z'.floor_level = L + (ip.1 : ℤ) ∧
        ∃ rest, z'.name = "F" ++ toString (L + (ip.1 : ℤ)) ++ " " ++ rest) := by
  constructor
  · refine ⟨combine_pages s 0 pages vlat vlon cosLat L, ?_,
      (combine_pages_spec s pages vlat vlon cosLat L 0).1,
      (combine_pages_spec s pages vlat vlon cosLat L 0).2.1,
      (combine_pages_spec s pages vlat vlon cosLat L 0).2.2⟩
    match pages, h2 with
    | p1 :: p2 :: rest, _ => rfl
  · intro ip _ z' hz'
    obtain ⟨z, hz, rfl⟩ := List.mem_map.mp hz'
    exact ⟨assemble_floor z hz, z.name, rfl⟩

/-- Three single-room pages used to instantiate the multi-page theorem. -/
def samplePages : List PageData :=
  [{ room_polygons := [[(0, 0), (4, 0), (0, 4)]] },
   { room_polygons := [[(0, 0), (6, 0), (0, 6)]] },
   { room_polygons := [[(0, 0), (8, 0), (0, 8)]] }]

/-- Per-page identifier supply used to instantiate the multi-page
theorem. -/
def pageSupply : ℕ → ℕ → ℕ := fun i n => 1000 * i + n

set_option maxRecDepth 1000000 in
/-- Witness for C6: a 3-page document at base floor 0 yields zones at
floors 0, 1, 2 in page order, names tagged F0/F1/F2. -/
theorem claim_C6_multipage_floors_witness :
    (∃ r, ingest_pdf_pages pageSupply samplePages 0 0 1 0 = .ok r ∧
      r.zones = (samplePages.enumFrom 0).flatMap (fun ip =>
        (process_image (pageSupply ip.1) ip.2 0 0 1 ((0:ℤ) + (ip.1 : ℤ))).zones.map
          (fun z => { z with
            name := "F" ++ toString ((0:ℤ) + (ip.1 : ℤ)) ++ " " ++ z.name })) ∧
      r.connections = (samplePages.enumFrom 0).flatMap (fun ip =>
        (process_image (pageSupply ip.1) ip.2 0 0 1 ((0:ℤ) + (ip.1 : ℤ))).connections) ∧
      r.perch_points = (samplePages.enumFrom 0).flatMap (fun ip =>
        (process_image (pageSupply ip.1) ip.2 0 0 1 ((0:ℤ) + (ip.1 : ℤ))).perch_points)) ∧
    (combine_pages pageSupply 0 samplePages 0 0 1 0).zones.map (·.floor_level) =
      [0, 1, 2] ∧
    (combine_pages pageSupply 0 samplePages 0 0 1 0).zones.map (·.name) =
      ["F0 Zone 1 (room)", "F1 Zone 1 (corridor)", "F2 Zone 1 (room)"] :=
  ⟨(claim_C6_multipage_floors pageSupply samplePages 0 0 1 0 (by decide)).1,
    by with_unfolding_all decide, by with_unfolding_all decide⟩

lemma orderedInsert_map {α β : Type} (g : α → β) (r : β → β → Prop)
    (r' : α → α → Prop) [DecidableRel r] [DecidableRel r']
    (hr : ∀ a b, r (g a) (g b) ↔ r' a b) (a : α) (l : List α) :
    (l.map g).orderedInsert r (g a) = (l.orderedInsert r' a).map g := by
  induction l with
  | nil => rfl
  | cons b t ih =>
    simp only [List.map_cons, List.orderedInsert]
    by_cases h : r' a b
    · rw [if_pos ((hr a b).mpr h), if_pos h]
      rfl
    · rw [if_neg (fun hc => h ((hr a b).mp hc)), if_neg h, List.map_cons, ih]

lemma insertionSort_map {α β : Type} (g : α → β) (r : β → β → Prop)
    (r' : α → α → Prop) [DecidableRel r] [DecidableRel r']
    (hr : ∀ a b, r (g a) (g b) ↔ r' a b) (l : List α) :
    List.insertionSort r (l.map g) = (List.insertionSort r' l).map g := by
  induction l with
  | nil => rfl
  | cons a t ih =>
    simp only [List.map_cons, List.insertionSort, ih]
    exact orderedInsert_map g r r' hr a _

lemma relabel_zone_mk_zone (f : ℕ → ℕ) (zid i : ℕ) (ring : List (ℚ × ℚ))
    (ox oy vlat vlon cosLat : ℚ) (fl : ℤ) :
    relabel_zone f (mk_zone zid i ring ox oy vlat vlon cosLat fl) =
      mk_zone (f zid) i ring ox oy vlat vlon cosLat fl := rfl

lemma mk_zones_relabel (s : ℕ → ℕ) (i : ℕ) (rooms : List (List (ℚ × ℚ)))
    (ox oy vlat vlon cosLat : ℚ) (fl : ℤ) :
    mk_zones s i rooms ox oy vlat vlon cosLat fl =
      (mk_zones (fun n => n) i rooms ox oy vlat vlon cosLat fl).map
        (relabel_zone s) := by
  induction rooms generalizing i with
  | nil => rfl
  | cons ring rest ih =>
    simp only [mk_zones, List.map_cons, relabel_zone_mk_zone, ih]

lemma zone_ring_relabel (f : ℕ → ℕ) (z : IngestedZone)
    (ox oy vlat vlon cosLat : ℚ) :
    zone_ring (relabel_zone f z) ox oy vlat vlon cosLat =
      zone_ring z ox oy vlat vlon cosLat := rfl

lemma door_connections_relabel (s : ℕ → ℕ) (c : ℕ)
    (zps : List (IngestedZone × List (ℚ × ℚ))) (doors : List (ℚ × ℚ))
    (ox oy vlat vlon cosLat : ℚ) :
    door_connections s c (zps.map fun zp => (relabel_zone s zp.1, zp.2)) doors
        ox oy vlat vlon cosLat =
      (door_connections (fun n => n) c zps doors ox oy vlat vlon cosLat).map
        (relabel_conn s) := by
  induction doors generalizing c with
  | nil => rfl
  | cons dp rest ih =>
    rw [door_connections, door_connections]
    have hfilter : (zps.map fun zp => (relabel_zone s zp.1, zp.2)).filter
        (fun zp => decide (sqDistRingPoint zp.2 dp < 9/4)) =
          (zps.filter fun zp =>
            decide (sqDistRingPoint zp.2 dp < 9/4)).map
            fun zp => (relabel_zone s zp.1, zp.2) := by
      rw [List.filter_map]
      rfl
    have hmap : List.insertionSort
        (fun a b => sqDistRingPoint a.2 dp ≤ sqDistRingPoint b.2 dp)
        ((zps.filter fun zp => decide (sqDistRingPoint zp.2 dp < 9/4)).map
          fun zp => (relabel_zone s zp.1, zp.2)) =
        (List.insertionSort
          (fun a b => sqDistRingPoint a.2 dp ≤ sqDistRingPoint b.2 dp)
          (zps.filter fun zp => decide (sqDistRingPoint zp.2 dp < 9/4))).map
          (fun zp => (relabel_zone s zp.1, zp.2)) :=
      insertionSort_map _ _ _ (fun a b => Iff.rfl) _
    rw [hfilter, hmap]
    rcases hs : List.insertionSort
        (fun a b => sqDistRingPoint a.2 dp ≤ sqDistRingPoint b.2 dp)
        (zps.filter fun zp => decide (sqDistRingPoint zp.2 dp < 9/4)) with
      _ | ⟨za, _ | ⟨zb, srest⟩⟩
    · rw [hs]
      simp only [List.map_nil]
      exact ih c
    · rw [hs]
      simp only [List.map_cons, List.map_nil]
      exact ih c
    · rw [hs]
      simp only [List.map_cons]
      rw [ih (c + 1)]
      rfl

lemma fallback_connections_relabel (s : ℕ → ℕ) (c : ℕ)
    (zones : List IngestedZone) :
    fallback_connections s c (zones.map (relabel_zone s)) =
      (fallback_connections (fun n => n) c zones).map (relabel_conn s) := by
  induction zones generalizing c with
  | nil => rfl
  | cons za rest ih =>
    cases rest with
    | nil => rfl
    | cons zb rest2 =>
      simp only [List.map_cons, fallback_connections]
      rw [← List.map_cons (relabel_zone s) zb rest2, ih (c + 1)]
      rfl

lemma mk_perch_points_relabel (s : ℕ → ℕ) (c : ℕ) (zone : IngestedZone)
    (positions : List (ℚ × ℚ)) (ox oy vlat vlon cosLat : ℚ) :
    mk_perch_points s c (relabel_zone s zone) positions ox oy vlat vlon cosLat =
      (mk_perch_points (fun n => n) c zone positions
        ox oy vlat vlon cosLat).map (relabel_pp s) := by
  induction positions generalizing c with
  | nil => rfl
  | cons pos rest ih =>
    simp only [mk_perch_points, List.map_cons]
    rw [ih (c + 1)]
    rfl

lemma perch_blocks_relabel {s : ℕ → ℕ} (hinj : Function.Injective s) (c : ℕ)
    (zps : List (IngestedZone × List (ℚ × ℚ))) (zones : List IngestedZone)
    (ox oy vlat vlon cosLat : ℚ) :
    perch_blocks s c (zps.map fun zp => (relabel_zone s zp.1, zp.2))
        (zones.map (relabel_zone s)) ox oy vlat vlon cosLat =
      (perch_blocks (fun n => n) c zps zones ox oy vlat vlon cosLat).map
        (relabel_pp s) := by
  induction zones generalizing c with
  | nil => rfl
  | cons zone rest ih =>
    simp only [List.map_cons, perch_blocks]
    have hpred : ((fun zp : IngestedZone × List (ℚ × ℚ) =>
        zp.1.id == (relabel_zone s zone).id) ∘
          (fun zp : IngestedZone × List (ℚ × ℚ) =>
            (relabel_zone s zp.1, zp.2))) =
        fun zp => zp.1.id == zone.id := by
      funext zp
      by_cases h : zp.1.id = zone.id
      · simp [relabel_zone, h]
      · have h1 : (s zp.1.id == s zone.id) = false :=
          beq_eq_false_iff_ne.mpr fun hc => h (hinj hc)
        have h2 : (zp.1.id == zone.id) = false := beq_eq_false_iff_ne.mpr h
        simp only [Function.comp_apply, relabel_zone]
        rw [h1, h2]
    rw [List.find?_map, hpred]
    rcases hfind : zps.find? fun zp => zp.1.id == zone.id with _ | zp
    · rw [hfind]
      exact ih c
    · rw [hfind]
      simp only [Option.map_some']
      rw [mk_perch_points_relabel]
      have hgen : (generate_perch_positions zp.2
          (num_perch (relabel_zone s zone).area_sq_m)) =
          generate_perch_positions zp.2 (num_perch zone.area_sq_m) := rfl
      rw [hgen, List.map_append, List.length_map, ih]

/-- C7 (amended): the assembler — and hence the vision pipeline, whose
only entity construction happens there — is deterministic up to the
identifier draws: a run with (injective) identifier stream `s` equals
the canonical run with `s` applied to every identifier field.  All
non-identifier content is therefore independent of the stream, and two
runs differ only by that relabeling. -/
theorem claim_C7_determinism_up_to_ids (s : ℕ → ℕ)
    (hinj : Function.Injective s) (rooms : List (List (ℚ × ℚ)))
    (doors : List (ℚ × ℚ)) (walls : List ((ℚ × ℚ) × (ℚ × ℚ)))
    (vlat vlon cosLat : ℚ) (fl : ℤ) :
    assemble s rooms doors walls vlat vlon cosLat fl =
      relabel_result s (assemble (fun n => n) rooms doors walls
        vlat vlon cosLat fl) := by
  rcases eq_or_ne rooms [] with rfl | hne
  · rfl
  rw [assemble_eq_of_ne_nil s rooms doors walls vlat vlon cosLat fl hne,
    assemble_eq_of_ne_nil (fun n => n) rooms doors walls vlat vlon cosLat fl hne]
  have hzones : asm_zones s rooms vlat vlon cosLat fl =
      (asm_zones (fun n => n) rooms vlat vlon cosLat fl).map (relabel_zone s) := by
    rw [asm_zones, asm_zones, mk_zones_relabel]
  have hzps : asm_zone_polys s rooms vlat vlon cosLat fl =
      (asm_zone_polys (fun n => n) rooms vlat vlon cosLat fl).map
        fun zp => (relabel_zone s zp.1, zp.2) := by
    rw [asm_zone_polys, asm_zone_polys, hzones, List.map_map, List.map_map]
    rfl
  have hlen : (asm_zones s rooms vlat vlon cosLat fl).length =
      (asm_zones (fun n => n) rooms vlat vlon cosLat fl).length := by
    rw [hzones, List.length_map]
  have hdcs : asm_dcs s rooms doors vlat vlon cosLat fl =
      (asm_dcs (fun n => n) rooms doors vlat vlon cosLat fl).map
        (relabel_conn s) := by
    rw [asm_dcs, asm_dcs, hzps, hlen, door_connections_relabel]
  have hconns : asm_conns s rooms doors vlat vlon cosLat fl =
      (asm_conns (fun n => n) rooms doors vlat vlon cosLat fl).map
        (relabel_conn s) := by
    rw [asm_conns, asm_conns, hdcs]
    by_cases hc : (asm_dcs (fun n => n) rooms doors vlat vlon cosLat fl).isEmpty &&
        decide (1 < (asm_zones (fun n => n) rooms vlat vlon cosLat fl).length)
    · have hc' : (((asm_dcs (fun n => n) rooms doors vlat vlon cosLat
          fl).map (relabel_conn s)).isEmpty &&
          decide (1 < (asm_zones s rooms vlat vlon cosLat fl).length)) = true := by
        simp only [Bool.and_eq_true] at hc ⊢
        obtain ⟨he, hl⟩ := hc
        refine ⟨?_, by rwa [hlen]⟩
        rw [List.isEmpty_iff.mp he]
        rfl
      rw [if_pos hc', if_pos hc, hlen, hzones, fallback_connections_relabel]
    · have hc' : ¬ ((((asm_dcs (fun n => n) rooms doors vlat vlon cosLat
          fl).map (relabel_conn s)).isEmpty &&
          decide (1 < (asm_zones s rooms vlat vlon cosLat fl).length)) = true) := by
        intro habs
        apply hc
        simp only [Bool.and_eq_true] at habs ⊢
        obtain ⟨he, hl⟩ := habs
        refine ⟨?_, by rwa [hlen] at hl⟩
        rw [List.map_eq_nil_iff.mp (List.isEmpty_iff.mp he)]
        rfl
      rw [if_neg hc', if_neg hc]
  have hpps : asm_pps s rooms doors vlat vlon cosLat fl =
      (asm_pps (fun n => n) rooms doors vlat vlon cosLat fl).map
        (relabel_pp s) := by
    rw [asm_pps, asm_pps, hzps, hconns, hzones, List.length_map,
      List.length_map, perch_blocks_relabel hinj]
  rw [hzones, hconns, hpps]
  rfl

set_option maxRecDepth 1000000 in
/-- C7 counterexample: two runs on the identical decoded input that
differ only in the identifier draws (`uuid4` is fresh randomness per
run) do not return equal results — the identifiers differ. -/
theorem claim_C7_determinism_counterexample :
    assemble idSupply [[(0, 0), (4, 0), (0, 4)]] [] [] 0 0 1 0 ≠
      assemble (fun n => n + 1) [[(0, 0), (4, 0), (0, 4)]] [] [] 0 0 1 0 := by
  with_unfolding_all decide

set_option maxRecDepth 1000000 in
/-- Witness for the amended C7 at a concrete input and a concrete
injective non-identity supply. -/
theorem claim_C7_determinism_up_to_ids_witness :
    assemble (fun n => n + 7) [[(0, 0), (4, 0), (0, 4)]] [] [] 0 0 1 0 =
      relabel_result (fun n => n + 7)
        (assemble (fun n => n) [[(0, 0), (4, 0), (0, 4)]] [] [] 0 0 1 0) :=
  claim_C7_determinism_up_to_ids (fun n => n + 7)
    (fun _ _ h => Nat.add_right_cancel h) [[(0, 0), (4, 0), (0, 4)]] [] [] 0 0 1 0
